import Mathlib

/-!
Verification of the abandonment-recovery worker: shallow embedding of the
rule evaluator, the dispatch protocol, the state store operations, the
event tracker and the WhatsApp client, together with proofs of the spec's
claims about them.

Go `time.Time` instants and `time.Duration` values are modelled as integer
nanoseconds.  Calls to `time.Since(t)` and `time.Now()` inside the Go code
read the ambient clock; they are modelled by passing the clock instant
explicitly, so each `time.Since(t)` becomes `now - t`.  Store and network
operations are modelled by passing their outcomes as explicit parameters
and recording the performed externally visible operations as a trace.
-/

namespace Worker

/-- A `time.Time` instant, in integer nanoseconds. -/
abbrev Instant := Int

/-- `time.Minute` in nanoseconds (Go durations are int64 nanoseconds). -/
def minuteNs : Int := 60 * 1000000000

/-! ### Shared domain model (src/shared/domain/journey.go) -/

/-- A JSON value, the model of Go `any` decoded from JSON
(used for the free-form `metadata` mapping). -/
inductive JVal where
  | str (s : String)
  | num (n : Int)
  | boolean (b : Bool)
  | null
  | arr (elems : List JVal)
  | obj (fields : List (String × JVal))
deriving Repr

/-- `RepiqueEntry`: a single recovery message execution
(fields `step`, `rule`, `sent_at`, `template_used`, `attempt_number`). -/
structure RepiqueEntry where
  Step : String
  Rule : String
  SentAt : Instant
  TemplateUsed : String
  AttemptNumber : Int
deriving Repr, DecidableEq

/-- `RepiqueHistory`: ordered append-only record of rule executions. -/
structure RepiqueHistory where
  Entries : List RepiqueEntry
deriving Repr, DecidableEq

/-- `GetRuleAttemptCount`: number of history entries for a given rule name
(Go loop incrementing a counter over `h.Entries`). -/
def RepiqueHistory.GetRuleAttemptCount (h : RepiqueHistory) (ruleName : String) : Int :=
  h.Entries.foldl (fun count e => if e.Rule == ruleName then count + 1 else count) 0

/-- `GetLastAttemptTime`: timestamp of the last attempt for a rule, `none` if
the rule has no entry.  The Go loop keeps the running maximum, replacing it
only when `entry.SentAt.After(*lastTime)` holds (strict order). -/
def RepiqueHistory.GetLastAttemptTime (h : RepiqueHistory) (ruleName : String) : Option Instant :=
  h.Entries.foldl
    (fun lastTime e =>
      if e.Rule == ruleName then
        match lastTime with
        | none => some e.SentAt
        | some t => if t < e.SentAt then some e.SentAt else lastTime
      else lastTime)
    none

/-- `GetTotalAttemptCount`: total number of recovery attempts, `len(h.Entries)`. -/
def RepiqueHistory.GetTotalAttemptCount (h : RepiqueHistory) : Int :=
  (h.Entries.length : Int)

/-- `JourneyState`: current state of a customer's journey. -/
structure JourneyState where
  JourneyID : String
  Step : String
  CustomerNumber : String
  TenantID : String
  ContactID : String
  LastInteractionAt : Instant
  StepStartedAt : Instant
  JourneyStartedAt : Instant
  Metadata : List (String × JVal)
deriving Repr

/-- `Message`: a message to be sent to a customer. -/
structure Message where
  CustomerNumber : String
  TenantID : String
  ContactID : String
  Template : String
  RepiqueID : String
  Step : String
  Metadata : List (String × JVal)
deriving Repr

/-! ### Worker configuration (src/worker/config/app.go) -/

/-- A recovery rule of a step (`name`, `enabled`, `inactive_minutes`,
`max_attempts`, `template`). -/
structure RecoveryRule where
  Name : String
  Enabled : Bool
  InactiveMinutes : Int
  MaxAttempts : Int
  Template : String
deriving Repr, DecidableEq

/-- Global journey configuration (`enabled`, `max_total_attempts`,
`min_interval_between_attempts_minutes`). -/
structure GlobalConfig where
  Enabled : Bool
  MaxTotalAttempts : Int
  MinIntervalBetweenAttemptsMinutes : Int
deriving Repr, DecidableEq

/-! ### Rule evaluator (src/worker/service/avaliador_regras.go)

`EvaluateRecoveryRule` in the Go source computes `time.Since(*lastAttemptTime)`
and `state.TimeSinceLastInteraction()` (also `time.Since`), reading the
ambient clock inside the function; the embedding passes that clock instant
as the explicit final argument `now`, so each `time.Since(t)` becomes `now - t`.
-/

/-- Result of evaluating a single recovery rule. -/
structure EvaluationResult where
  ShouldTrigger : Bool
  Rule : RecoveryRule
  Reason : String
deriving Repr, DecidableEq

/-- Check 5 of `EvaluateRecoveryRule` (inactivity threshold), the code that
follows the `lastAttemptTime != nil` block in the Go source. -/
def checkInactivity (rule : RecoveryRule) (state : JourneyState) (now : Instant) :
    EvaluationResult :=
  if now - state.LastInteractionAt < rule.InactiveMinutes * minuteNs then
    ⟨false, rule, "tempo de inatividade não atingido"⟩
  else
    ⟨true, rule, "todas as condições atendidas"⟩

/-- `EvaluateRecoveryRule`: decides whether a recovery rule fires, checking in
order: rule enabled; global max attempts; per-rule max attempts; minimum
interval since the rule's last attempt (only when one exists); inactivity
threshold. -/
def EvaluateRecoveryRule (rule : RecoveryRule) (globalCfg : GlobalConfig)
    (state : JourneyState) (history : RepiqueHistory) (now : Instant) :
    EvaluationResult :=
  if !rule.Enabled then
    ⟨false, rule, "regra desabilitada"⟩
  else if globalCfg.MaxTotalAttempts ≤ history.GetTotalAttemptCount then
    ⟨false, rule, "máximo global de tentativas excedido"⟩
  else if rule.MaxAttempts ≤ history.GetRuleAttemptCount rule.Name then
    ⟨false, rule, "máximo de tentativas da regra excedido"⟩
  else
    match history.GetLastAttemptTime rule.Name with
    | some lastAttemptTime =>
      if now - lastAttemptTime < globalCfg.MinIntervalBetweenAttemptsMinutes * minuteNs then
        ⟨false, rule, "intervalo mínimo não atingido"⟩
      else
        checkInactivity rule state now
    | none => checkInactivity rule state now

/-- The intermediate `triggeredResults` list of `FindTriggeredRule`: every
rule evaluated in config order, keeping those with `ShouldTrigger` true. -/
def triggeredResults (rules : List RecoveryRule) (globalCfg : GlobalConfig)
    (state : JourneyState) (history : RepiqueHistory) (now : Instant) :
    List EvaluationResult :=
  (rules.map (fun r => EvaluateRecoveryRule r globalCfg state history now)).filter
    (fun res => res.ShouldTrigger)

/-- The selection loop of `FindTriggeredRule`: starting from the first
triggered result, replace the running choice only when a later result has
strictly larger `InactiveMinutes`
(Go: `r.Rule.InactiveMinutes > selected.Rule.InactiveMinutes`). -/
def selectHighestInactivity (first : EvaluationResult) (rest : List EvaluationResult) :
    EvaluationResult :=
  rest.foldl
    (fun selected r =>
      if selected.Rule.InactiveMinutes < r.Rule.InactiveMinutes then r else selected)
    first

/-- `FindTriggeredRule`: the unique recovery rule to execute: `none` when no
rule triggers, otherwise the triggered result with the largest
`InactiveMinutes` (the warning log emitted when several trigger carries no
data flow and is not modelled). -/
def FindTriggeredRule (rules : List RecoveryRule) (globalCfg : GlobalConfig)
    (state : JourneyState) (history : RepiqueHistory) (now : Instant) :
    Option EvaluationResult :=
  match triggeredResults rules globalCfg state history now with
  | [] => none
  | first :: rest => some (selectHighestInactivity first rest)

/-! ### Uniform time shift, used to state that the evaluator depends on
absolute instants only through durations. -/

/-- Shift every timestamp of a journey state by `d` nanoseconds. -/
def shiftJourneyState (s : JourneyState) (d : Int) : JourneyState :=
  { s with LastInteractionAt := s.LastInteractionAt + d,
           StepStartedAt := s.StepStartedAt + d,
           JourneyStartedAt := s.JourneyStartedAt + d }

/-- Shift the `SentAt` timestamp of a history entry by `d` nanoseconds. -/
def shiftEntry (e : RepiqueEntry) (d : Int) : RepiqueEntry :=
  { e with SentAt := e.SentAt + d }

/-- Shift every timestamp of a repique history by `d` nanoseconds. -/
def shiftHistory (h : RepiqueHistory) (d : Int) : RepiqueHistory :=
  ⟨h.Entries.map (shiftEntry · d)⟩

/-! ### State store (src/shared/domain/journey.go, state-store part, and
src/shared/redis/state_store.go)

A Redis read either finds no key (`redis.Nil`), fails in transport, or
yields a payload which decodes (`Except.ok`) or fails to unmarshal
(`Except.error`). -/

/-- The error kinds of the state store. -/
inductive StoreErr where
  | notFound
  | transport
  | serialization
deriving Repr, DecidableEq

/-- Outcome of a raw Redis `GET`. -/
inductive ReadResult (α : Type) where
  | absent
  | transportFailure
  | value (v : α)

/-- `GetJourneyState`: decode the journey state; `redis.Nil` becomes
`domain.ErrNotFound`, other client errors are transport failures, and
unmarshal failures are serialization errors. -/
def GetJourneyState (read : ReadResult (Except Unit JourneyState)) :
    Except StoreErr JourneyState :=
  match read with
  | .absent => .error .notFound
  | .transportFailure => .error .transport
  | .value (.error _) => .error .serialization
  | .value (.ok s) => .ok s

/-- Result of `UpdateLastInteractionAt`: the state written back by
`SaveJourneyState` (if any) together with the returned error. -/
structure TouchResult where
  written : Option JourneyState
  result : Except StoreErr Unit
deriving Repr

/-- `UpdateLastInteractionAt`: read the current state with `GetJourneyState`
(surfacing its error, `ErrNotFound` included, wrapped as "buscar estado"),
set `LastInteractionAt` to the given timestamp and write the state back
(`saveOutcome` is the outcome of the `SaveJourneyState` write). -/
def UpdateLastInteractionAt (read : ReadResult (Except Unit JourneyState))
    (saveOutcome : Except Unit Unit) (timestamp : Instant) : TouchResult :=
  match GetJourneyState read with
  | .error e => ⟨none, .error e⟩
  | .ok state =>
    match saveOutcome with
    | .error _ => ⟨none, .error .transport⟩
    | .ok _ => ⟨some { state with LastInteractionAt := timestamp }, .ok ()⟩

/-- `GetRepiqueHistory`: read the history key for `(journeyID, customerNumber)`;
an absent key yields an empty history and no error, other client errors are
transport failures, unmarshal failures are serialization errors. -/
def GetRepiqueHistory
    (store : String → String → ReadResult (Except Unit RepiqueHistory))
    (journeyID customerNumber : String) : Except StoreErr RepiqueHistory :=
  match store journeyID customerNumber with
  | .absent => .ok ⟨[]⟩
  | .transportFailure => .error .transport
  | .value (.error _) => .error .serialization
  | .value (.ok h) => .ok h

/-! ### Dispatch protocol (src/worker/service/processador_jornadas.go,
`sendRecoveryMessage`, the lock-protocol revision at lines 248-335)

The store and messenger calls are modelled by their outcomes, passed in
`DispatchOutcomes`; the calls actually performed are recorded in order as a
trace of effects, and the stored history list is threaded through. -/

/-- Outcomes of the external calls `sendRecoveryMessage` may perform. -/
structure DispatchOutcomes where
  lockOutcome : Except StoreErr Bool
  appendOutcome : Except StoreErr Unit
  sendOutcome : Except Unit Unit
  touchOutcome : Except StoreErr Unit
deriving Repr

/-- Externally visible operations performed by `sendRecoveryMessage`,
in order. -/
inductive Effect where
  | acquireLock (journeyID customerNumber ruleName : String) (attemptNumber : Int)
  | appendHistory (journeyID customerNumber : String) (entry : RepiqueEntry)
  | send (msg : Message)
  | touch (journeyID customerNumber : String) (timestamp : Instant)
deriving Repr

/-- The error returned by `sendRecoveryMessage`, tagged by the failing call. -/
inductive DispatchError where
  | lock (e : StoreErr)
  | append (e : StoreErr)
  | send
deriving Repr, DecidableEq

/-- Result of `sendRecoveryMessage`: the trace of performed operations, the
stored history after the call, and the returned value. -/
structure DispatchResult where
  trace : List Effect
  finalHistory : List RepiqueEntry
  result : Except DispatchError Unit

/-- The `attemptNumber` local of `sendRecoveryMessage`:
`history.GetRuleAttemptCount(rule.Name) + 1`. -/
def dispatchAttemptNumber (history : RepiqueHistory) (rule : RecoveryRule) : Int :=
  history.GetRuleAttemptCount rule.Name + 1

/-- The `entry` local of `sendRecoveryMessage`: step, rule, `now` as
`SentAt`, template and attempt number. -/
def dispatchEntry (state : JourneyState) (rule : RecoveryRule) (history : RepiqueHistory)
    (now : Instant) : RepiqueEntry :=
  ⟨state.Step, rule.Name, now, rule.Template, dispatchAttemptNumber history rule⟩

/-- The `templateRef` local of `sendRecoveryMessage`:
`journey.<journey>.templates:<step>:<template>`. -/
def dispatchTemplateRef (cfgJourney : String) (state : JourneyState)
    (rule : RecoveryRule) : String :=
  "journey." ++ cfgJourney ++ ".templates:" ++ state.Step ++ ":" ++ rule.Template

/-- The `msg` local of `sendRecoveryMessage`. -/
def dispatchMessage (cfgJourney : String) (state : JourneyState)
    (rule : RecoveryRule) : Message :=
  ⟨state.CustomerNumber, state.TenantID, state.ContactID,
    dispatchTemplateRef cfgJourney state rule, rule.Name, state.Step, state.Metadata⟩

/-- `sendRecoveryMessage`: acquire the idempotency lock for
`(journey, customer, rule, attemptNumber)`; on `false` return success (a
duplicate), on transport error surface it.  Then append the history entry
(recording step, rule, `now` as `SentAt`, template and attempt number)
BEFORE sending; on append failure surface the error without sending.  Then
build the message and send it; on failure surface the error, leaving the
appended history untouched.  Finally touch `LastInteractionAt` (failure
only logged).  `now` models the `time.Now()` read for the entry,
`nowTouch` the later `time.Now()` read passed to the touch. -/
def sendRecoveryMessage (o : DispatchOutcomes) (cfgJourney : String)
    (state : JourneyState) (result : EvaluationResult) (history : RepiqueHistory)
    (storedHistory : List RepiqueEntry) (now nowTouch : Instant) : DispatchResult :=
  let rule := result.Rule
  let lockEff := Effect.acquireLock state.JourneyID state.CustomerNumber rule.Name
    (dispatchAttemptNumber history rule)
  match o.lockOutcome with
  | .error e => ⟨[lockEff], storedHistory, .error (.lock e)⟩
  | .ok false => ⟨[lockEff], storedHistory, .ok ()⟩
  | .ok true =>
    let entry := dispatchEntry state rule history now
    let appendEff := Effect.appendHistory state.JourneyID state.CustomerNumber entry
    match o.appendOutcome with
    | .error e => ⟨[lockEff, appendEff], storedHistory, .error (.append e)⟩
    | .ok _ =>
      let sendEff := Effect.send (dispatchMessage cfgJourney state rule)
      let newHistory := storedHistory ++ [entry]
      match o.sendOutcome with
      | .error _ => ⟨[lockEff, appendEff, sendEff], newHistory, .error .send⟩
      | .ok _ =>
        let touchEff := Effect.touch state.JourneyID state.CustomerNumber nowTouch
        ⟨[lockEff, appendEff, sendEff, touchEff], newHistory, .ok ()⟩

/-! ### Event tracker (src/event-tracker/service/tracker.go) -/

/-- The body of `POST /journey/event`; clients cannot supply any timestamp. -/
structure EventRequest where
  JourneyID : String
  Step : String
  CustomerNumber : String
  TenantID : String
  ContactID : String
  Metadata : List (String × JVal)
deriving Repr

/-- `RecordEvent`: build the new state with every timestamp set to the server
time `now`, then preserve `JourneyStartedAt` from an existing state, and
preserve `StepStartedAt` only when the step did not change. -/
def RecordEvent (existing : Option JourneyState) (req : EventRequest) (now : Instant) :
    JourneyState :=
  let state : JourneyState := ⟨req.JourneyID, req.Step, req.CustomerNumber, req.TenantID,
    req.ContactID, now, now, now, req.Metadata⟩
  match existing with
  | none => state
  | some e =>
    { state with
        JourneyStartedAt := e.JourneyStartedAt,
        StepStartedAt := if e.Step == req.Step then e.StepStartedAt else now }

/-- A sequence of recorded events for one `(journey_id, customer_number)`
pair, starting from no state, each event applied by `RecordEvent`. -/
def recordEvents (events : List (EventRequest × Instant)) : Option JourneyState :=
  events.foldl (fun st ev => some (RecordEvent st ev.1 ev.2)) none

/-! ### Template render data (src/worker/appconfig/templates.go, `Render`)

The Go code builds `data := map[string]any{"metadata": metadata}` and then
copies every top-level metadata field to the root with
`for k, v := range metadata { data[k] = v }`.  The metadata map is modelled
as an association list with pairwise distinct keys (a Go map), and `data`
as a lookup function updated in sequence. -/

/-- Lookup of a key in an association list (first match). -/
def lookupField (fields : List (String × JVal)) (key : String) : Option JVal :=
  match fields with
  | [] => none
  | (k, v) :: rest => if k == key then some v else lookupField rest key

/-- Insertion into a string-keyed map modelled as a lookup function. -/
def mapUpd (m : String → Option JVal) (key : String) (v : JVal) : String → Option JVal :=
  fun q => if q == key then some v else m q

/-- The render data object of `Render`: first the binding of `"metadata"` to
the whole metadata map, then every top-level metadata field copied to the
root (overwriting on collision, as a Go map assignment does). -/
def buildRenderData (metadata : List (String × JVal)) : String → Option JVal :=
  metadata.foldl (fun data kv => mapUpd data kv.1 kv.2)
    (mapUpd (fun _ => none) "metadata" (JVal.obj metadata))

/-- Resolution of a second path segment, as in a template reference
`.metadata.x`: field `x` of the value, provided it is an object. -/
def resolveField (v : Option JVal) (key : String) : Option JVal :=
  match v with
  | some (.obj fields) => lookupField fields key
  | _ => none

/-! ### WhatsApp client (src/unnamed/part_003, `Send` and `sendRequest`)

One attempt's HTTP interaction is modelled by `ReqResult`; the retry loop by
`sendLoop`, a recursion over the remaining retry budget.  The wait before a
retry is modelled by the `cancelled` schedule: `cancelled i` means the
context was done during the wait preceding attempt `i`. -/

/-- The body of a non-network-failed HTTP response, as seen by `sendRequest`:
it either unmarshals into a `WhatsAppError` carrying `error.code`, is not
valid JSON, or unmarshals into a success response with a message id. -/
inductive BodyKind where
  | parseableErr (code : Int)
  | unparseable
  | parseableOk (messageId : String)
deriving Repr, DecidableEq

/-- Outcome of one attempt's externals: token fetch failure, request/network
failure, or an HTTP response with a status and a body. -/
inductive ReqResult where
  | tokenErr
  | netErr
  | httpResp (status : Int) (body : BodyKind)
deriving Repr, DecidableEq

/-- The error produced by `sendRequest`: either a plain wrapped error or a
`*WhatsAppError` carrying the body's `error.code` field (the HTTP status is
not retained in the error). -/
inductive SendErr where
  | plain
  | whatsapp (code : Int)
deriving Repr, DecidableEq

/-- `sendRequest`: on non-200 status return the parsed `WhatsAppError` when
the body parses, else a plain error; on 200 decode the success response. -/
def sendRequest (r : ReqResult) : Except SendErr String :=
  match r with
  | .tokenErr => .error .plain
  | .netErr => .error .plain
  | .httpResp status body =>
    if status ≠ 200 then
      match body with
      | .parseableErr code => .error (.whatsapp code)
      | _ => .error .plain
    else
      match body with
      | .unparseable => .error .plain
      | .parseableErr _ => .ok ""
      | .parseableOk messageId => .ok messageId

/-- Outcome of `Send`, also counting how many `sendRequest` attempts were
performed. -/
inductive SendOutcome where
  | delivered (messageId : String) (attemptsMade : Nat)
  | apiError (code : Int) (attemptsMade : Nat)
  | cancelledAt (attemptsMade : Nat)
  | exhausted (attemptsMade : Nat)
deriving Repr, DecidableEq

/-- One iteration of the retry loop of `Send`: before every attempt but the
first, the wait on `RetryDelay` is aborted when the context is done; then
`sendRequest` is performed; a success returns it, a `*WhatsAppError` whose
`ErrorInfo.Code` lies in `[400, 500)` is returned immediately, and every
other error falls through to the next iteration (`none`). -/
def sendAttempt (outcomes : Nat → ReqResult) (cancelled : Nat → Bool)
    (attempt : Nat) : Option SendOutcome :=
  if attempt ≠ 0 && cancelled attempt then some (.cancelledAt attempt)
  else
    match sendRequest (outcomes attempt) with
    | .ok messageId => some (.delivered messageId (attempt + 1))
    | .error (.whatsapp code) =>
      if 400 ≤ code ∧ code < 500 then some (.apiError code (attempt + 1)) else none
    | .error .plain => none

/-- The retry loop of `Send`: `attempt` is the loop counter, `remaining` how
many further iterations the loop bound `attempt <= MaxRetries` still allows;
when the loop runs out of iterations with only retriable errors, `Send`
returns the wrapped "failed after %d retries" error. -/
def sendLoop (outcomes : Nat → ReqResult) (cancelled : Nat → Bool) :
    Nat → Nat → SendOutcome
  | attempt, 0 =>
    match sendAttempt outcomes cancelled attempt with
    | some out => out
    | none => .exhausted (attempt + 1)
  | attempt, remaining + 1 =>
    match sendAttempt outcomes cancelled attempt with
    | some out => out
    | none => sendLoop outcomes cancelled (attempt + 1) remaining

/-- `WhatsAppClient.Send`: run the retry loop
`for attempt := 0; attempt <= MaxRetries; attempt++`. -/
def WhatsAppSend (maxRetries : Nat) (outcomes : Nat → ReqResult)
    (cancelled : Nat → Bool) : SendOutcome :=
  sendLoop outcomes cancelled 0 maxRetries

/-! ### Concrete fixtures used by witnesses and counterexamples -/

/-- An enabled rule: 10 inactive minutes, 1 attempt. -/
def ruleFx : RecoveryRule := ⟨"lembrete-inicial", true, 10, 1, "soft"⟩

/-- An enabled rule with a 2-attempt budget. -/
def rule2Fx : RecoveryRule := ⟨"lembrete-inicial", true, 10, 2, "soft"⟩

/-- A disabled rule. -/
def disabledRuleFx : RecoveryRule := ⟨"lembrete-inicial", false, 10, 1, "soft"⟩

/-- A global config: enabled, 3 total attempts, 5 minutes between attempts. -/
def globalFx : GlobalConfig := ⟨true, 3, 5⟩

/-- A journey state whose timestamps all read 0. -/
def stateFx : JourneyState :=
  ⟨"onboarding-v2", "personal-data", "5511999999999", "tenant-123", "contact-456", 0, 0, 0, []⟩

/-- The empty repique history. -/
def emptyHistoryFx : RepiqueHistory := ⟨[]⟩

/-- A history with one prior attempt of `lembrete-inicial` at instant 0. -/
def histFx : RepiqueHistory := ⟨[⟨"personal-data", "lembrete-inicial", 0, "soft", 1⟩]⟩

/-- A metadata map that itself contains a top-level `"metadata"` key. -/
def metadataFx : List (String × JVal) :=
  [("metadata", JVal.obj [("x", JVal.str "inner-x")]), ("name", JVal.str "Ana")]

/-- Dispatch outcomes: lock acquired, history append fails in transport. -/
def appendFailFx : DispatchOutcomes := ⟨.ok true, .error .transport, .ok (), .ok ()⟩

/-- Dispatch outcomes: the lock is already held by another worker. -/
def lockHeldFx : DispatchOutcomes := ⟨.ok false, .ok (), .ok (), .ok ()⟩

/-! ## Theorems -/

theorem selectHighestInactivity_cons (first r : EvaluationResult) (rs : List EvaluationResult) :
    selectHighestInactivity first (r :: rs) =
      selectHighestInactivity
        (if first.Rule.InactiveMinutes < r.Rule.InactiveMinutes then r else first) rs := rfl

theorem selectHighestInactivity_split (rest : List EvaluationResult) (first : EvaluationResult) :
    ∃ pre post,
      first :: rest = pre ++ selectHighestInactivity first rest :: post ∧
      (∀ r ∈ pre, r.Rule.InactiveMinutes <
        (selectHighestInactivity first rest).Rule.InactiveMinutes) ∧
      (∀ r ∈ post, r.Rule.InactiveMinutes ≤
        (selectHighestInactivity first rest).Rule.InactiveMinutes) := by
  induction rest generalizing first with
  | nil => exact ⟨[], [], rfl, by simp, by simp⟩
  | cons r rs ih =>
    rw [selectHighestInactivity_cons]
    by_cases hc : first.Rule.InactiveMinutes < r.Rule.InactiveMinutes
    · rw [if_pos hc]
      obtain ⟨pre, post, heq, hpre, hpost⟩ := ih r
      refine ⟨first :: pre, post, ?_, ?_, hpost⟩
      · rw [List.cons_append, ← heq]
      · intro x hx
        rcases List.mem_cons.mp hx with hx | hx
        · subst hx
          have hr : r ∈ pre ++ selectHighestInactivity r rs :: post := by
            rw [← heq]; exact List.mem_cons_self r rs
          rcases List.mem_append.mp hr with hr | hr
          · exact lt_trans hc (hpre r hr)
          · rcases List.mem_cons.mp hr with hr | hr
            · rw [hr] at hc; exact hc
            · exact lt_of_lt_of_le hc (hpost r hr)
        · exact hpre x hx
    · rw [if_neg hc]
      push_neg at hc
      obtain ⟨pre, post, heq, hpre, hpost⟩ := ih first
      cases pre with
      | nil =>
        rw [List.nil_append] at heq
        injection heq with hsel hpost2
        refine ⟨[], r :: rs, ?_, by simp, ?_⟩
        · rw [List.nil_append, ← hsel]
        · intro x hx
          rw [← hsel]
          rcases List.mem_cons.mp hx with hx | hx
          · subst hx; exact hc
          · have hx2 : x ∈ post := hpost2 ▸ hx
            have := hpost x hx2
            rw [← hsel] at this; exact this
      | cons p pre2 =>
        rw [List.cons_append] at heq
        injection heq with hp hrs
        subst hp
        refine ⟨first :: r :: pre2, post, ?_, ?_, hpost⟩
        · rw [List.cons_append, List.cons_append, ← hrs]
        · have hfirstlt : first.Rule.InactiveMinutes <
              (selectHighestInactivity first rs).Rule.InactiveMinutes :=
            hpre first (List.mem_cons_self first pre2)
          intro x hx
          rcases List.mem_cons.mp hx with hx | hx
          · subst hx; exact hfirstlt
          · rcases List.mem_cons.mp hx with hx | hx
            · subst hx; exact lt_of_le_of_lt hc hfirstlt
            · exact hpre x (List.mem_cons_of_mem first hx)

/-- C2: for every rule, global config, state, history and clock instant, the
single-rule evaluation triggers iff the five predicates hold (rule enabled;
total history count below the global maximum; per-rule count below the
rule's maximum; when the rule has a prior entry, the time since its latest
`sent_at` reaches the global minimum interval; the time since the last
interaction reaches the rule's inactivity threshold), checked in this order
with the first failing predicate determining the reason; the `max_*`
predicates block exactly at equality and the duration thresholds are
satisfied exactly at `≥`. -/
theorem evaluateRecoveryRule_five_predicates
    (rule : RecoveryRule) (globalCfg : GlobalConfig) (state : JourneyState)
    (history : RepiqueHistory) (now : Instant) :
    ((EvaluateRecoveryRule rule globalCfg state history now).ShouldTrigger = true ↔
      (rule.Enabled = true ∧
       history.GetTotalAttemptCount < globalCfg.MaxTotalAttempts ∧
       history.GetRuleAttemptCount rule.Name < rule.MaxAttempts ∧
       (∀ t, history.GetLastAttemptTime rule.Name = some t →
          globalCfg.MinIntervalBetweenAttemptsMinutes * minuteNs ≤ now - t) ∧
       rule.InactiveMinutes * minuteNs ≤ now - state.LastInteractionAt)) ∧
    (EvaluateRecoveryRule rule globalCfg state history now).Rule = rule ∧
    (rule.Enabled = false →
      (EvaluateRecoveryRule rule globalCfg state history now).Reason = "regra desabilitada") ∧
    (rule.Enabled = true →
     globalCfg.MaxTotalAttempts ≤ history.GetTotalAttemptCount →
      (EvaluateRecoveryRule rule globalCfg state history now).Reason =
        "máximo global de tentativas excedido") ∧
    (rule.Enabled = true →
     history.GetTotalAttemptCount < globalCfg.MaxTotalAttempts →
     rule.MaxAttempts ≤ history.GetRuleAttemptCount rule.Name →
      (EvaluateRecoveryRule rule globalCfg state history now).Reason =
        "máximo de tentativas da regra excedido") ∧
    (rule.Enabled = true →
     history.GetTotalAttemptCount < globalCfg.MaxTotalAttempts →
     history.GetRuleAttemptCount rule.Name < rule.MaxAttempts →
     (∀ t, history.GetLastAttemptTime rule.Name = some t →
        now - t < globalCfg.MinIntervalBetweenAttemptsMinutes * minuteNs →
      (EvaluateRecoveryRule rule globalCfg state history now).Reason =
        "intervalo mínimo não atingido")) ∧
    (rule.Enabled = true →
     history.GetTotalAttemptCount < globalCfg.MaxTotalAttempts →
     history.GetRuleAttemptCount rule.Name < rule.MaxAttempts →
     (∀ t, history.GetLastAttemptTime rule.Name = some t →
        globalCfg.MinIntervalBetweenAttemptsMinutes * minuteNs ≤ now - t) →
     now - state.LastInteractionAt < rule.InactiveMinutes * minuteNs →
      (EvaluateRecoveryRule rule globalCfg state history now).Reason =
        "tempo de inatividade não atingido") ∧
    (rule.Enabled = true →
     history.GetTotalAttemptCount < globalCfg.MaxTotalAttempts →
     history.GetRuleAttemptCount rule.Name < rule.MaxAttempts →
     (∀ t, history.GetLastAttemptTime rule.Name = some t →
        globalCfg.MinIntervalBetweenAttemptsMinutes * minuteNs ≤ now - t) →
     rule.InactiveMinutes * minuteNs ≤ now - state.LastInteractionAt →
      (EvaluateRecoveryRule rule globalCfg state history now).Reason =
        "todas as condições atendidas") := by
  rcases hlast : history.GetLastAttemptTime rule.Name with _ | t <;>
    simp only [EvaluateRecoveryRule, checkInactivity, hlast] <;>
    split_ifs with h1 h2 h3 h4 _h5 <;>
    simp_all

/-- Witness for C2: a concrete configuration (one prior attempt of the rule
10 minutes ago, 10-minute inactivity threshold met exactly at the boundary)
on which the characterization yields a trigger. -/
theorem evaluateRecoveryRule_five_predicates_witness :
    (EvaluateRecoveryRule rule2Fx globalFx stateFx histFx (10 * minuteNs)).ShouldTrigger = true := by
  apply (evaluateRecoveryRule_five_predicates rule2Fx globalFx stateFx histFx (10 * minuteNs)).1.mpr
  refine ⟨rfl, by decide, by decide, ?_, by decide⟩
  intro t ht
  have h0 : histFx.GetLastAttemptTime rule2Fx.Name = some 0 := by rfl
  rw [h0] at ht
  cases ht
  decide

/-- C3: multi-rule selection returns `none` when no rule triggers, the unique
triggered result when exactly one triggers, and with several triggered it
returns a triggered result of maximal `InactiveMinutes` that is the first
occurrence of that maximum in config order (every earlier triggered result
is strictly smaller, every later one no larger). -/
theorem findTriggeredRule_selection
    (rules : List RecoveryRule) (globalCfg : GlobalConfig) (state : JourneyState)
    (history : RepiqueHistory) (now : Instant) :
    (triggeredResults rules globalCfg state history now = [] ↔
       ∀ r ∈ rules, (EvaluateRecoveryRule r globalCfg state history now).ShouldTrigger = false) ∧
    ((∀ r ∈ rules, (EvaluateRecoveryRule r globalCfg state history now).ShouldTrigger = false) →
       FindTriggeredRule rules globalCfg state history now = none) ∧
    (∀ res, triggeredResults rules globalCfg state history now = [res] →
       FindTriggeredRule rules globalCfg state history now = some res) ∧
    (∀ first rest, triggeredResults rules globalCfg state history now = first :: rest →
       ∃ selected pre post,
         FindTriggeredRule rules globalCfg state history now = some selected ∧
         first :: rest = pre ++ selected :: post ∧
         (∀ r ∈ pre, r.Rule.InactiveMinutes < selected.Rule.InactiveMinutes) ∧
         (∀ r ∈ post, r.Rule.InactiveMinutes ≤ selected.Rule.InactiveMinutes)) := by
  have hempty : triggeredResults rules globalCfg state history now = [] ↔
      ∀ r ∈ rules, (EvaluateRecoveryRule r globalCfg state history now).ShouldTrigger = false := by
    rw [triggeredResults, List.filter_eq_nil_iff]
    constructor
    · intro h r hr
      have := h _ (List.mem_map_of_mem _ hr)
      simpa using this
    · intro h x hx
      obtain ⟨r, hr, rfl⟩ := List.mem_map.mp hx
      simpa using h r hr
  refine ⟨hempty, ?_, ?_, ?_⟩
  · intro h
    rw [FindTriggeredRule, hempty.mpr h]
  · intro res h
    rw [FindTriggeredRule, h]
    rfl
  · intro first rest h
    rw [FindTriggeredRule, h]
    obtain ⟨pre, post, heq, hpre, hpost⟩ := selectHighestInactivity_split rest first
    exact ⟨selectHighestInactivity first rest, pre, post, rfl, heq, hpre, hpost⟩

/-- Witness for C3: with the only rule disabled, no rule triggers and the
selection returns `none`. -/
theorem findTriggeredRule_selection_witness :
    FindTriggeredRule [disabledRuleFx] globalFx stateFx emptyHistoryFx 0 = none := by
  apply (findTriggeredRule_selection [disabledRuleFx] globalFx stateFx emptyHistoryFx 0).2.1
  intro r hr
  rw [List.mem_singleton.mp hr]
  rfl

theorem shift_totalAttemptCount (h : RepiqueHistory) (d : Int) :
    (shiftHistory h d).GetTotalAttemptCount = h.GetTotalAttemptCount := by
  simp [shiftHistory, RepiqueHistory.GetTotalAttemptCount]

theorem shift_ruleAttemptCount (h : RepiqueHistory) (d : Int) (name : String) :
    (shiftHistory h d).GetRuleAttemptCount name = h.GetRuleAttemptCount name := by
  rw [shiftHistory, RepiqueHistory.GetRuleAttemptCount, RepiqueHistory.GetRuleAttemptCount]
  obtain ⟨entries⟩ := h
  show List.foldl _ 0 _ = List.foldl _ 0 _
  generalize (0 : Int) = acc
  induction entries generalizing acc with
  | nil => rfl
  | cons e es ih =>
    simp only [List.map_cons, List.foldl_cons, shiftEntry]
    exact ih _

theorem shift_lastAttemptTime (h : RepiqueHistory) (d : Int) (name : String) :
    (shiftHistory h d).GetLastAttemptTime name =
      (h.GetLastAttemptTime name).map (· + d) := by
  rw [shiftHistory, RepiqueHistory.GetLastAttemptTime, RepiqueHistory.GetLastAttemptTime]
  obtain ⟨entries⟩ := h
  show List.foldl _ none _ = Option.map _ (List.foldl _ none _)
  have key : ∀ (es : List RepiqueEntry) (acc : Option Instant),
      List.foldl
        (fun lastTime e =>
          if e.Rule == name then
            match lastTime with
            | none => some e.SentAt
            | some t => if t < e.SentAt then some e.SentAt else lastTime
          else lastTime)
        (acc.map (· + d)) (es.map (shiftEntry · d)) =
      Option.map (· + d)
        (List.foldl
          (fun lastTime e =>
            if e.Rule == name then
              match lastTime with
              | none => some e.SentAt
              | some t => if t < e.SentAt then some e.SentAt else lastTime
            else lastTime)
          acc es) := by
    intro es
    induction es with
    | nil => intro acc; rfl
    | cons e es ih =>
      intro acc
      simp only [List.map_cons, List.foldl_cons]
      have hstep :
          (if (shiftEntry e d).Rule == name then
            match acc.map (· + d) with
            | none => some (shiftEntry e d).SentAt
            | some t => if t < (shiftEntry e d).SentAt then some (shiftEntry e d).SentAt
                        else acc.map (· + d)
            else acc.map (· + d)) =
          Option.map (· + d)
            (if e.Rule == name then
              match acc with
              | none => some e.SentAt
              | some t => if t < e.SentAt then some e.SentAt else acc
              else acc) := by
        rcases acc with _ | t
        · by_cases hr : e.Rule == name <;> simp [shiftEntry, hr]
        · by_cases hr : e.Rule == name
          · simp only [shiftEntry, hr, if_true]
            show (if t + d < e.SentAt + d then some (e.SentAt + d) else some (t + d)) =
              Option.map (· + d) (if t < e.SentAt then some e.SentAt else some t)
            by_cases hlt : t < e.SentAt
            · rw [if_pos (add_lt_add_right hlt d), if_pos hlt]
              rfl
            · rw [if_neg (fun hcon => hlt (lt_of_add_lt_add_right hcon)), if_neg hlt]
              rfl
          · simp [shiftEntry, hr]
      rw [hstep, ih]
      rfl
  have := key entries none
  simpa using this

theorem evaluateRecoveryRule_shift (rule : RecoveryRule) (globalCfg : GlobalConfig)
    (state : JourneyState) (history : RepiqueHistory) (now d : Instant) :
    EvaluateRecoveryRule rule globalCfg (shiftJourneyState state d)
      (shiftHistory history d) (now + d) =
      EvaluateRecoveryRule rule globalCfg state history now := by
  rw [EvaluateRecoveryRule, EvaluateRecoveryRule, shift_totalAttemptCount,
    shift_ruleAttemptCount, shift_lastAttemptTime]
  have hinact : checkInactivity rule (shiftJourneyState state d) (now + d) =
      checkInactivity rule state now := by
    rw [checkInactivity, checkInactivity, shiftJourneyState]
    have heq : now + d - (state.LastInteractionAt + d) = now - state.LastInteractionAt := by
      ring
    rw [heq]
  rcases history.GetLastAttemptTime rule.Name with _ | t
  · simp only [Option.map_none']
    rw [hinact]
  · simp only [Option.map_some']
    have heq : now + d - (t + d) = now - t := by ring
    rw [heq, hinact]

/-- Counterexample to C8: `FindTriggeredRule` reads the ambient clock inside
(via `time.Since`); with the code's actual arguments (rules, global config,
state, history) held fixed, its output differs between two clock instants,
so it is not a function of those inputs alone. -/
theorem findTriggeredRule_clock_dependent :
    FindTriggeredRule [ruleFx] globalFx stateFx emptyHistoryFx 0 ≠
      FindTriggeredRule [ruleFx] globalFx stateFx emptyHistoryFx (10 * minuteNs) := by
  intro hcontra
  have h1 : FindTriggeredRule [ruleFx] globalFx stateFx emptyHistoryFx 0 = none := by rfl
  have h2 : FindTriggeredRule [ruleFx] globalFx stateFx emptyHistoryFx (10 * minuteNs) =
      some ⟨true, ruleFx, "todas as condições atendidas"⟩ := by rfl
  rw [h1, h2] at hcontra
  exact Option.noConfusion hcontra

/-- C8 (amended): with the ambient clock read modelled as the explicit instant
`now`, rule selection is pure and deterministic: it depends on absolute
times only through the durations `now - sent_at` and
`now - last_interaction_at`, being invariant under a uniform shift of the
clock and of every stored timestamp. -/
theorem findTriggeredRule_pure_given_clock (rules : List RecoveryRule)
    (globalCfg : GlobalConfig) (state : JourneyState) (history : RepiqueHistory)
    (now d : Instant) :
    FindTriggeredRule rules globalCfg (shiftJourneyState state d)
      (shiftHistory history d) (now + d) =
      FindTriggeredRule rules globalCfg state history now := by
  have htr : triggeredResults rules globalCfg (shiftJourneyState state d)
      (shiftHistory history d) (now + d) =
      triggeredResults rules globalCfg state history now := by
    rw [triggeredResults, triggeredResults]
    congr 1
    exact List.map_congr_left fun r _ =>
      evaluateRecoveryRule_shift r globalCfg state history now d
  rw [FindTriggeredRule, FindTriggeredRule, htr]

/-- C1: in the dispatch of a triggered rule, the history entry (recording
step, rule, `now` as `sent_at`, template, attempt number) is appended before
the send is attempted (every send effect in the trace is preceded by the
append of that entry); when the append fails the error is surfaced and no
send has occurred; and when the append succeeded the stored history is the
old one with the entry appended, regardless of the send outcome — the entry
is never rewritten or removed. -/
theorem sendRecoveryMessage_history_before_send
    (o : DispatchOutcomes) (cfgJourney : String) (state : JourneyState)
    (result : EvaluationResult) (history : RepiqueHistory)
    (storedHistory : List RepiqueEntry) (now nowTouch : Instant) :
    (∀ msg, Effect.send msg ∈
        (sendRecoveryMessage o cfgJourney state result history storedHistory now nowTouch).trace →
      ∃ pre post,
        (sendRecoveryMessage o cfgJourney state result history storedHistory now nowTouch).trace =
          pre ++ Effect.send msg :: post ∧
        Effect.appendHistory state.JourneyID state.CustomerNumber
          (dispatchEntry state result.Rule history now) ∈ pre) ∧
    (∀ e, o.lockOutcome = .ok true → o.appendOutcome = .error e →
      (sendRecoveryMessage o cfgJourney state result history storedHistory now nowTouch).result =
        .error (.append e) ∧
      (∀ msg, Effect.send msg ∉
        (sendRecoveryMessage o cfgJourney state result history storedHistory now nowTouch).trace)) ∧
    (o.lockOutcome = .ok true → o.appendOutcome = .ok () →
      (sendRecoveryMessage o cfgJourney state result history storedHistory now nowTouch).finalHistory =
        storedHistory ++ [dispatchEntry state result.Rule history now]) := by
  obtain ⟨lockO, appendO, sendO, touchO⟩ := o
  rcases lockO with e | b
  · exact ⟨fun msg hmsg => by simp [sendRecoveryMessage] at hmsg,
      fun e2 hl => by simp at hl, fun hl => by simp at hl⟩
  · rcases b with _ | _
    · exact ⟨fun msg hmsg => by simp [sendRecoveryMessage] at hmsg,
        fun e2 hl => by simp at hl, fun hl => by simp at hl⟩
    · rcases appendO with e | u
      · refine ⟨fun msg hmsg => by simp [sendRecoveryMessage] at hmsg, ?_,
          fun hl ha => by simp at ha⟩
        intro e2 hl ha
        simp only [Except.error.injEq] at ha
        subst ha
        exact ⟨rfl, fun msg hmsg => by simp [sendRecoveryMessage] at hmsg⟩
      · rcases sendO with f | v
        · refine ⟨?_, fun e2 hl ha => by simp at ha, fun hl ha => rfl⟩
          intro msg hmsg
          simp [sendRecoveryMessage] at hmsg
          subst hmsg
          refine ⟨[Effect.acquireLock state.JourneyID state.CustomerNumber result.Rule.Name
              (dispatchAttemptNumber history result.Rule),
            Effect.appendHistory state.JourneyID state.CustomerNumber
              (dispatchEntry state result.Rule history now)], [], rfl, by simp⟩
        · refine ⟨?_, fun e2 hl ha => by simp at ha, fun hl ha => rfl⟩
          intro msg hmsg
          simp [sendRecoveryMessage] at hmsg
          subst hmsg
          refine ⟨[Effect.acquireLock state.JourneyID state.CustomerNumber result.Rule.Name
              (dispatchAttemptNumber history result.Rule),
            Effect.appendHistory state.JourneyID state.CustomerNumber
              (dispatchEntry state result.Rule history now)],
            [Effect.touch state.JourneyID state.CustomerNumber nowTouch], rfl, by simp⟩

/-- Witness for C1: when the history append fails in transport, the error is
surfaced ("the send has not occurred"). -/
theorem sendRecoveryMessage_history_before_send_witness :
    (sendRecoveryMessage appendFailFx "onboarding-v2" stateFx
      ⟨true, ruleFx, "todas as condições atendidas"⟩ emptyHistoryFx [] 0 0).result =
      .error (.append .transport) :=
  ((sendRecoveryMessage_history_before_send appendFailFx "onboarding-v2" stateFx
      ⟨true, ruleFx, "todas as condições atendidas"⟩ emptyHistoryFx [] 0 0).2.1
    StoreErr.transport rfl rfl).1

/-- C4: the per-attempt lock for `(journey_id, customer_number, rule,
attempt_number)` is the first performed operation, before any history append
or send; when the lock is not acquired the processor returns success having
appended nothing and sent nothing; a transport error from the acquisition is
surfaced. -/
theorem sendRecoveryMessage_lock_gate
    (o : DispatchOutcomes) (cfgJourney : String) (state : JourneyState)
    (result : EvaluationResult) (history : RepiqueHistory)
    (storedHistory : List RepiqueEntry) (now nowTouch : Instant) :
    ((sendRecoveryMessage o cfgJourney state result history storedHistory now nowTouch).trace.head? =
      some (Effect.acquireLock state.JourneyID state.CustomerNumber result.Rule.Name
        (dispatchAttemptNumber history result.Rule))) ∧
    (o.lockOutcome = .ok false →
      (sendRecoveryMessage o cfgJourney state result history storedHistory now nowTouch).result =
        .ok () ∧
      (sendRecoveryMessage o cfgJourney state result history storedHistory now nowTouch).finalHistory =
        storedHistory ∧
      (∀ jid cust e, Effect.appendHistory jid cust e ∉
        (sendRecoveryMessage o cfgJourney state result history storedHistory now nowTouch).trace) ∧
      (∀ msg, Effect.send msg ∉
        (sendRecoveryMessage o cfgJourney state result history storedHistory now nowTouch).trace)) ∧
    (∀ e, o.lockOutcome = .error e →
      (sendRecoveryMessage o cfgJourney state result history storedHistory now nowTouch).result =
        .error (.lock e)) := by
  obtain ⟨lockO, appendO, sendO, touchO⟩ := o
  rcases lockO with e | b
  · refine ⟨rfl, fun hl => by simp at hl, ?_⟩
    intro e2 hl
    simp only [Except.error.injEq] at hl
    subst hl
    rfl
  · rcases b with _ | _
    · refine ⟨rfl, ?_, fun e2 hl => by simp at hl⟩
      intro _
      exact ⟨rfl, rfl,
        fun jid cust e hmem => by simp [sendRecoveryMessage] at hmem,
        fun msg hmem => by simp [sendRecoveryMessage] at hmem⟩
    · rcases appendO with e | u
      · exact ⟨rfl, fun hl => by simp at hl, fun e2 hl => by simp at hl⟩
      · rcases sendO with f | v
        · exact ⟨rfl, fun hl => by simp at hl, fun e2 hl => by simp at hl⟩
        · exact ⟨rfl, fun hl => by simp at hl, fun e2 hl => by simp at hl⟩

/-- Witness for C4: when the lock is already held the processor returns
success. -/
theorem sendRecoveryMessage_lock_gate_witness :
    (sendRecoveryMessage lockHeldFx "onboarding-v2" stateFx
      ⟨true, ruleFx, "todas as condições atendidas"⟩ emptyHistoryFx [] 0 0).result =
      .ok () :=
  ((sendRecoveryMessage_lock_gate lockHeldFx "onboarding-v2" stateFx
      ⟨true, ruleFx, "todas as condições atendidas"⟩ emptyHistoryFx [] 0 0).2.1 rfl).1

theorem recordEvents_preserves_start (events : List (EventRequest × Instant))
    (s : JourneyState) :
    (events.foldl (fun st ev => some (RecordEvent st ev.1 ev.2)) (some s)).map
        (·.JourneyStartedAt) = some s.JourneyStartedAt := by
  induction events generalizing s with
  | nil => rfl
  | cons e es ih =>
    simp only [List.foldl_cons]
    rw [ih]
    simp [RecordEvent]

/-- C5: `journey_started_at` is set to the server time of the first event and
never changed by any subsequent event; `step_started_at` is set to the
current server time exactly when the incoming step differs from the stored
one and is otherwise preserved; `last_interaction_at` is set to the current
server time on every event (the request carries no timestamp a client could
supply). -/
theorem recordEvent_timestamp_invariants (existing : JourneyState) (req : EventRequest)
    (now : Instant) (ev : EventRequest × Instant) (events : List (EventRequest × Instant)) :
    (RecordEvent none req now).JourneyStartedAt = now ∧
    (RecordEvent (some existing) req now).JourneyStartedAt = existing.JourneyStartedAt ∧
    (RecordEvent none req now).StepStartedAt = now ∧
    (RecordEvent (some existing) req now).StepStartedAt =
      (if existing.Step == req.Step then existing.StepStartedAt else now) ∧
    (RecordEvent none req now).LastInteractionAt = now ∧
    (RecordEvent (some existing) req now).LastInteractionAt = now ∧
    (recordEvents (ev :: events)).map (·.JourneyStartedAt) = some ev.2 := by
  refine ⟨rfl, rfl, rfl, rfl, rfl, rfl, ?_⟩
  rw [recordEvents, List.foldl_cons]
  exact recordEvents_preserves_start events (RecordEvent none ev.1 ev.2)

/-- Counterexample to C6: at the concrete absent-state input, the timestamp
touch returns the wrapped `ErrNotFound` error instead of succeeding. -/
theorem updateLastInteractionAt_absent_errors :
    (UpdateLastInteractionAt ReadResult.absent (Except.ok ()) 5).result =
      Except.error StoreErr.notFound := rfl

/-- C6 (amended): the post-send touch reads the state, sets
`last_interaction_at` to the supplied instant and writes the state back;
when the state key is absent it surfaces the wrapped `ErrNotFound` error
(rather than silently no-opping) and writes nothing — its caller in
`sendRecoveryMessage` merely logs that failure. -/
theorem updateLastInteractionAt_characterization
    (read : ReadResult (Except Unit JourneyState))
    (saveOutcome : Except Unit Unit) (ts : Instant) :
    (read = .absent →
      UpdateLastInteractionAt read saveOutcome ts = ⟨none, .error .notFound⟩) ∧
    (∀ s, read = .value (.ok s) → saveOutcome = .ok () →
      UpdateLastInteractionAt read saveOutcome ts =
        ⟨some { s with LastInteractionAt := ts }, .ok ()⟩) ∧
    (∀ e, (UpdateLastInteractionAt read saveOutcome ts).result = .error e →
      (UpdateLastInteractionAt read saveOutcome ts).written = none) := by
  rcases read with _ | _ | v
  · exact ⟨fun _ => rfl, fun s hs => by simp at hs, fun e _ => rfl⟩
  · exact ⟨fun h => by simp at h, fun s hs => by simp at hs, fun e _ => rfl⟩
  · rcases v with err | s
    · exact ⟨fun h => by simp at h, fun s hs => by simp at hs, fun e _ => rfl⟩
    · rcases saveOutcome with f | u
      · refine ⟨fun h => by simp at h, ?_, fun e _ => rfl⟩
        intro s2 hs hso
        simp at hso
      · refine ⟨fun h => by simp at h, ?_, ?_⟩
        · intro s2 hs _
          simp only [ReadResult.value.injEq, Except.ok.injEq] at hs
          subst hs
          rfl
        · intro e he
          simp [UpdateLastInteractionAt, GetJourneyState] at he

/-- Witness for C6: with the state present, the touch writes it back with the
new `last_interaction_at`. -/
theorem updateLastInteractionAt_characterization_witness :
    UpdateLastInteractionAt (ReadResult.value (Except.ok stateFx)) (Except.ok ()) 7 =
      ⟨some { stateFx with LastInteractionAt := 7 }, Except.ok ()⟩ :=
  (updateLastInteractionAt_characterization (ReadResult.value (Except.ok stateFx))
    (Except.ok ()) 7).2.1 stateFx rfl rfl

/-- C9: for every store and `(journey_id, customer_number)` whose history key
is absent, the history read succeeds with an empty sequence; and on no input
does it return `ErrNotFound`. -/
theorem getRepiqueHistory_absent_empty
    (store : String → String → ReadResult (Except Unit RepiqueHistory))
    (journeyID customerNumber : String) :
    (store journeyID customerNumber = .absent →
      GetRepiqueHistory store journeyID customerNumber = .ok ⟨[]⟩) ∧
    GetRepiqueHistory store journeyID customerNumber ≠ .error .notFound := by
  rcases h : store journeyID customerNumber with _ | _ | v
  · exact ⟨fun _ => by rw [GetRepiqueHistory, h], by rw [GetRepiqueHistory, h]; simp⟩
  · exact ⟨fun hcon => by simp [h] at hcon, by rw [GetRepiqueHistory, h]; simp⟩
  · rcases v with e | hist
    · exact ⟨fun hcon => by simp [h] at hcon, by rw [GetRepiqueHistory, h]; simp⟩
    · exact ⟨fun hcon => by simp [h] at hcon, by rw [GetRepiqueHistory, h]; simp⟩

/-- Witness for C9: a store with no history key yields the empty history. -/
theorem getRepiqueHistory_absent_empty_witness :
    GetRepiqueHistory (fun _ _ => ReadResult.absent) "onboarding-v2" "5511999999999" =
      .ok ⟨[]⟩ :=
  (getRepiqueHistory_absent_empty (fun _ _ => ReadResult.absent)
    "onboarding-v2" "5511999999999").1 rfl

theorem lookupField_mem_keys (l : List (String × JVal)) (k : String) (v : JVal) :
    lookupField l k = some v → k ∈ l.map Prod.fst := by
  induction l with
  | nil => intro h; simp [lookupField] at h
  | cons kv rest ih =>
    intro h
    rw [lookupField] at h
    by_cases hk : kv.1 == k
    · simp only [List.map_cons, List.mem_cons]
      exact Or.inl (beq_iff_eq.mp hk).symm
    · rw [if_neg (by simpa using hk)] at h
      exact List.mem_cons_of_mem _ (ih h)

theorem buildRenderData_foldl (l : List (String × JVal)) (d : String → Option JVal)
    (k : String) (hnd : (l.map Prod.fst).Nodup) :
    l.foldl (fun m kv => mapUpd m kv.1 kv.2) d k =
      (match lookupField l k with
       | some v => some v
       | none => d k) := by
  induction l generalizing d with
  | nil => rfl
  | cons kv rest ih =>
    obtain ⟨k1, v1⟩ := kv
    simp only [List.map_cons, List.nodup_cons] at hnd
    obtain ⟨hk1, hndrest⟩ := hnd
    rw [List.foldl_cons, ih _ hndrest]
    rcases hl : lookupField rest k with _ | w
    · by_cases hk : k1 = k
      · subst hk
        rw [lookupField]
        simp [mapUpd]
      · rw [lookupField]
        rw [if_neg (by simpa using hk)]
        simp only [hl]
        rw [mapUpd, if_neg (by simpa using fun hcon => hk hcon.symm)]
    · have hmem : k ∈ rest.map Prod.fst := lookupField_mem_keys rest k w hl
      have hk : ¬(k1 = k) := fun hcon => hk1 (hcon ▸ hmem)
      rw [lookupField, if_neg (by simpa using hk)]
      simp [hl]

/-- C10: the render data binds `"metadata"` to the whole map first and then
copies every top-level metadata field to the root, so a customer-supplied
top-level `"metadata"` field overwrites the whole-map binding (every
top-level field wins the lookup), the whole-map binding survives only when
no such field exists, and a `.metadata.x` reference resolves against the
customer's own `"metadata"` object instead of the full metadata map. -/
theorem renderData_metadata_shadowing (metadata : List (String × JVal))
    (hnd : (metadata.map Prod.fst).Nodup) :
    (∀ k v, lookupField metadata k = some v → buildRenderData metadata k = some v) ∧
    (lookupField metadata "metadata" = none →
      buildRenderData metadata "metadata" = some (JVal.obj metadata)) ∧
    (∀ inner x, lookupField metadata "metadata" = some (JVal.obj inner) →
      resolveField (buildRenderData metadata "metadata") x = lookupField inner x) := by
  have hbase : ∀ k, buildRenderData metadata k =
      (match lookupField metadata k with
       | some v => some v
       | none => mapUpd (fun _ => none) "metadata" (JVal.obj metadata) k) :=
    fun k => buildRenderData_foldl metadata _ k hnd
  refine ⟨?_, ?_, ?_⟩
  · intro k v h
    rw [hbase k, h]
  · intro h
    rw [hbase "metadata", h]
    simp [mapUpd]
  · intro inner x h
    have hb := hbase "metadata"
    rw [h] at hb
    rw [hb]
    rfl

/-- Witness for C10: with a metadata map that itself holds a top-level
`"metadata"` object, `.metadata.x` resolves to the customer's inner field. -/
theorem renderData_metadata_shadowing_witness :
    resolveField (buildRenderData metadataFx "metadata") "x" = some (JVal.str "inner-x") := by
  have h := (renderData_metadata_shadowing metadataFx (by decide)).2.2
    [("x", JVal.str "inner-x")] "x" rfl
  rw [h]
  rfl

theorem sendLoop_all_plain (outcomes : Nat → ReqResult) (cancelled : Nat → Bool)
    (hout : ∀ i, sendRequest (outcomes i) = .error .plain)
    (hcan : ∀ i, cancelled i = false) :
    ∀ remaining attempt, sendLoop outcomes cancelled attempt remaining =
      .exhausted (attempt + remaining + 1) := by
  have hnone : ∀ attempt, sendAttempt outcomes cancelled attempt = none := by
    intro attempt
    simp [sendAttempt, hcan, hout]
  intro remaining
  induction remaining with
  | zero => intro attempt; simp [sendLoop, hnone]
  | succ r ih =>
    intro attempt
    rw [sendLoop, hnone, ih (attempt + 1)]
    have harith : attempt + 1 + r + 1 = attempt + (r + 1) + 1 := by omega
    rw [harith]

/-- Counterexample to C7: on an HTTP 400 response whose parseable API error
body carries `error.code = 100` (a WhatsApp error code, not an HTTP status),
`Send` with `max_retries = 1` performs a second attempt and exhausts the
budget instead of returning the API error immediately: the no-retry decision
reads the body's code field, not the HTTP status. -/
theorem whatsAppSend_retries_on_http_4xx :
    WhatsAppSend 1 (fun _ => ReqResult.httpResp 400 (BodyKind.parseableErr 100))
      (fun _ => false) = SendOutcome.exhausted 2 := rfl

/-- C7 (amended): the client returns the API error immediately, without
retrying, exactly when a non-200 response has a parseable API error body
whose `error.code` field lies in `[400, 500)` (regardless of the HTTP
status); on a network error or any other error outcome it waits
`retry_delay` and retries, up to `max_retries` retries
(`max_retries + 1` attempts in total); cancellation aborts the wait between
attempts; a success is returned at once. -/
theorem whatsAppSend_retry_policy (outcomes : Nat → ReqResult) (cancelled : Nat → Bool)
    (maxRetries : Nat) (s c : Int) :
    (outcomes 0 = .httpResp s (.parseableErr c) → s ≠ 200 → 400 ≤ c → c < 500 →
      WhatsAppSend maxRetries outcomes cancelled = .apiError c 1) ∧
    ((∀ i, sendRequest (outcomes i) = .error .plain) → (∀ i, cancelled i = false) →
      WhatsAppSend maxRetries outcomes cancelled = .exhausted (maxRetries + 1)) ∧
    (∀ r, maxRetries = r + 1 → sendRequest (outcomes 0) = .error .plain → cancelled 1 = true →
      WhatsAppSend maxRetries outcomes cancelled = .cancelledAt 1) ∧
    (∀ messageId, sendRequest (outcomes 0) = .ok messageId →
      WhatsAppSend maxRetries outcomes cancelled = .delivered messageId 1) := by
  refine ⟨?_, ?_, ?_, ?_⟩
  · intro h0 hs h4 h5
    have hreq : sendRequest (outcomes 0) = .error (.whatsapp c) := by
      rw [h0, sendRequest, if_pos hs]
    have hatt : sendAttempt outcomes cancelled 0 = some (.apiError c 1) := by
      simp [sendAttempt, hreq, h4, h5]
    cases maxRetries with
    | zero => simp [WhatsAppSend, sendLoop, hatt]
    | succ r => simp [WhatsAppSend, sendLoop, hatt]
  · intro hout hcan
    have hall := sendLoop_all_plain outcomes cancelled hout hcan maxRetries 0
    rw [WhatsAppSend, hall, Nat.zero_add]
  · intro r hmr h0 hc
    subst hmr
    have hatt0 : sendAttempt outcomes cancelled 0 = none := by
      simp [sendAttempt, h0]
    have hatt1 : sendAttempt outcomes cancelled 1 = some (.cancelledAt 1) := by
      simp [sendAttempt, hc]
    cases r with
    | zero => simp [WhatsAppSend, sendLoop, hatt0, hatt1]
    | succ r2 => simp [WhatsAppSend, sendLoop, hatt0, hatt1]
  · intro messageId h0
    have hatt : sendAttempt outcomes cancelled 0 = some (.delivered messageId 1) := by
      simp [sendAttempt, h0]
    cases maxRetries with
    | zero => simp [WhatsAppSend, sendLoop, hatt]
    | succ r => simp [WhatsAppSend, sendLoop, hatt]

/-- Witness for C7: a non-200 response whose body code is 404 is returned
immediately after one attempt. -/
theorem whatsAppSend_retry_policy_witness :
    WhatsAppSend 3 (fun _ => ReqResult.httpResp 404 (BodyKind.parseableErr 404))
      (fun _ => false) = SendOutcome.apiError 404 1 :=
  (whatsAppSend_retry_policy (fun _ => ReqResult.httpResp 404 (BodyKind.parseableErr 404))
      (fun _ => false) 3 404 404).1 rfl (by decide) (by decide) (by decide)

end Worker
